import Mathlib

/-!
Verification of the egg-doneness classifier core (src/main.py).

The core consists of three components:
* `ImageProcessor.get_average_hsv` — reads an image file and reduces it to a
  3-dimensional average-HSV color descriptor (or `none` on unreadable input);
* `EggTrainer.train` — builds one centroid descriptor per egg class from a
  fixed training layout, raising a fatal error only when no class trained;
* `EggClassifier.classify` — assigns a query image the label of the nearest
  centroid by Euclidean distance in HSV space.

Modelling choices:
* pixel channel values and descriptor components are exact rationals (the
  Python code uses float64; we verify the exact-arithmetic algorithm);
* a decoded image is its flattened pixel list — `np.mean(hsv, axis=(0,1))`
  is the per-channel mean over all pixels, so only the multiset of pixels
  matters;
* the filesystem is an abstract map from path to `FileContent`, covering the
  two failure branches of `get_average_hsv` (`os.path.exists` false, and
  `cv2.imread` returning `None`) and the success branch;
* Python's insertion-ordered `dict` is an association list in iteration
  order;
* the classifier loop compares squared Euclidean distances; since `Real.sqrt`
  is strictly monotone on nonnegative arguments, every comparison
  `distance < min_distance` made by the code on true Euclidean distances has
  exactly the same outcome, so the loop computes the same winner.  The
  distance-minimality theorems are stated about the true Euclidean distance
  `Real.sqrt` of the squared distance.
-/

namespace EggCore

/-- A pixel as decoded by `cv2.imread`: (blue, green, red) channel values in 0..255. -/
abbrev Pixel := ℕ × ℕ × ℕ

/-- A 3-dimensional HSV color descriptor (hue, saturation, value). -/
abbrev Desc := ℚ × ℚ × ℚ

/-- BGR→HSV conversion of one pixel, mirroring `cv2.cvtColor(…, COLOR_BGR2HSV)`
on 8-bit images at exact rational precision: V = max channel,
S = 255·(V−min)/V (0 when V = 0), hue on the 0..180 scale from the maximal
channel, shifted by 180 when negative. -/
def cvtPixel (p : Pixel) : Desc :=
  let b : ℚ := p.1
  let g : ℚ := p.2.1
  let r : ℚ := p.2.2
  let v := max r (max g b)
  let mn := min r (min g b)
  let s : ℚ := if v = 0 then 0 else 255 * (v - mn) / v
  let h0 : ℚ :=
    if v = mn then 0
    else if v = r then 30 * (g - b) / (v - mn)
    else if v = g then 60 + 30 * (b - r) / (v - mn)
    else 120 + 30 * (r - g) / (v - mn)
  let h := if h0 < 0 then h0 + 180 else h0
  (h, s, v)

/-- Componentwise sum of a list of descriptors. -/
def sumDesc (l : List Desc) : Desc :=
  l.foldr (fun a acc => (a.1 + acc.1, a.2.1 + acc.2.1, a.2.2 + acc.2.2)) (0, 0, 0)

/-- Componentwise arithmetic mean of a list of descriptors
(`np.mean(values, axis=0)`; also the per-pixel mean of an HSV image). -/
def meanDesc (l : List Desc) : Desc :=
  let s := sumDesc l
  let n : ℚ := l.length
  (s.1 / n, s.2.1 / n, s.2.2 / n)

/-- What reading a path yields: the file is missing (`os.path.exists` false),
the file exists but does not decode (`cv2.imread` returns `None`), or the file
decodes to an image, recorded as its flattened pixel grid.  A successful
`cv2.imread` always yields at least one pixel. -/
inductive FileContent where
  | missing : FileContent
  | corrupt : FileContent
  | valid : List Pixel → FileContent

/-- An abstract filesystem: what each path reads as. -/
def FS : Type := String → FileContent

/-- `ImageProcessor.get_average_hsv`, as a function of what the path reads as:
`None` when the file is missing or `cv2.imread` fails, otherwise the
per-channel mean over all pixels of the BGR→HSV converted image. -/
def get_average_hsv (f : FileContent) : Option Desc :=
  match f with
  | .missing => none
  | .corrupt => none
  | .valid pixels => some (meanDesc (pixels.map cvtPixel))

/-! ### Trainer -/

/-- The training configuration: the ordered class-label → file-prefix mapping
(`EGG_CLASSES`), the per-class image count (`IMAGE_COUNT_PER_CLASS`) and the
file extension (`IMAGE_EXTENSION`). -/
structure TrainConfig where
  classes : List (String × String)
  imageCount : ℕ
  ext : String

/-- Zero-padded two-digit rendering of `i` (Python `f"{i:02d}"` for i < 100). -/
def pad2 (i : ℕ) : String :=
  if i < 10 then "0" ++ toString i else toString i

/-- The expected training filename built from the class file prefix, the
zero-padded sequence number and the extension. -/
def trainFilename (pfx ext : String) (i : ℕ) : String :=
  pfx ++ "-" ++ pad2 i ++ ext

/-- `os.path.join(self.base_path, filename)`. -/
def imagePath (base filename : String) : String :=
  base ++ "/" ++ filename

/-- The expected training paths of one class: sequence numbers 1 through
`count` (Python `range(1, IMAGE_COUNT_PER_CLASS + 1)`). -/
def trainPaths (base pfx ext : String) (count : ℕ) : List String :=
  (List.range count).map (fun i => imagePath base (trainFilename pfx ext (i + 1)))

/-- The descriptors collected for one class: invoke the extractor on every
expected path and keep exactly the successful results (`hsv_values`). -/
def classDescriptors (fs : FS) (base : String) (cfg : TrainConfig)
    (pfx : String) : List Desc :=
  (trainPaths base pfx cfg.ext cfg.imageCount).filterMap
    (fun p => get_average_hsv (fs p))

/-- The shape of the training loop over a class list: one table entry per
class whose collected descriptor list (given by `f` on its file prefix) is
nonempty, carrying the componentwise mean of the collected descriptors;
classes with no usable image contribute no entry. -/
def tableOf (f : String → List Desc) (l : List (String × String)) :
    List (String × Desc) :=
  l.filterMap (fun cp =>
    if (f cp.2).isEmpty then none else some (cp.1, meanDesc (f cp.2)))

/-- The centroid table built by the training loop (`self.color_patterns`). -/
def trainTable (fs : FS) (base : String) (cfg : TrainConfig) :
    List (String × Desc) :=
  tableOf (classDescriptors fs base cfg) cfg.classes

/-- The fatal training error message (`RuntimeError` text, with the base path
interpolated). -/
def trainFailMsg (base : String) : String :=
  "Treinamento falhou. Nenhuma imagem de treino foi encontrada ou processada. Verifique se as imagens estão em: " ++ base

/-- `EggTrainer.train`: build the centroid table; raise the fatal
`RuntimeError` exactly when the table ends up empty, otherwise return the
table. -/
def train (fs : FS) (base : String) (cfg : TrainConfig) :
    Except String (List (String × Desc)) :=
  let t := trainTable fs base cfg
  if t.isEmpty then .error (trainFailMsg base) else .ok t

/-! ### Classifier -/

/-- Squared Euclidean distance between two descriptors in HSV space.
The true Euclidean distance computed by `np.linalg.norm` is
`Real.sqrt` of this value. -/
def dist2 (a b : Desc) : ℚ :=
  (a.1 - b.1) ^ 2 + (a.2.1 - b.2.1) ^ 2 + (a.2.2 - b.2.2) ^ 2

/-- One iteration of the classifier loop: the accumulator holds
`(predicted_class, min_distance)` (`none` models the initial state
`predicted_class = None, min_distance = inf`); the entry wins when its
distance is strictly below the current best.  Distances are compared squared,
which `Real.sqrt`-monotonicity makes equivalent to the code's comparison of
true distances (and any finite distance beats the initial `inf`). -/
def bestStep (q : Desc) (acc : Option (String × ℚ)) (entry : String × Desc) :
    Option (String × ℚ) :=
  let d := dist2 q entry.2
  match acc with
  | none => some (entry.1, d)
  | some (n, m) => if d < m then some (entry.1, d) else some (n, m)

/-- The classifier loop over the whole table: the final
`(predicted_class, min_distance)` pair, `none` iff the table is empty. -/
def runBest (patterns : List (String × Desc)) (q : Desc) :
    Option (String × ℚ) :=
  patterns.foldl (bestStep q) none

/-- The internal winning squared distance (the final `min_distance`). -/
def winningSqDist (patterns : List (String × Desc)) (q : Desc) : Option ℚ :=
  (runBest patterns q).map Prod.snd

/-- The label part of the classifier loop (`predicted_class`). -/
def classifyPatterns (patterns : List (String × Desc)) (q : Desc) :
    Option String :=
  (runBest patterns q).map Prod.fst

/-- `EggClassifier.classify`: extract the query descriptor; on failure return
`None`; otherwise return the label of the loop winner.  Only the class name is
returned — the final `min_distance` is a local variable that is dropped. -/
def classify (patterns : List (String × Desc)) (fs : FS)
    (image_path : String) : Option String :=
  match get_average_hsv (fs image_path) with
  | none => none
  | some q => classifyPatterns patterns q

/-- The classifier object: its only state is `self.color_patterns`. -/
structure EggClassifier where
  color_patterns : List (String × Desc)

/-- `EggClassifier.classify` as a state-passing method: the result together
with the post-state of the object.  The method body only reads
`self.color_patterns`, so the post-state is the input object. -/
def EggClassifier.classifyM (c : EggClassifier) (fs : FS)
    (image_path : String) : Option String × EggClassifier :=
  (classify c.color_patterns fs image_path, c)

/-- The classifier loop as plain structural recursion on the remaining table,
carrying the current `(predicted_class, min_distance)`; used to reason about
the `foldl` form. -/
def best1 (q : Desc) (n : String) (m : ℚ) : List (String × Desc) → String × ℚ
  | [] => (n, m)
  | e :: rest =>
    if dist2 q e.2 < m then best1 q e.1 (dist2 q e.2) rest
    else best1 q n m rest

/-! ### Concrete sample data used by the witnesses -/

/-- A filesystem on which every path is missing. -/
def fsAllMissing : FS := fun _ => FileContent.missing

/-- A filesystem on which every path reads as a one-pixel gray image of
level `k`; its descriptor is `(0, 0, k)`. -/
def fsGray (k : ℕ) : FS := fun _ => FileContent.valid [(k, k, k)]

/-- A one-entry centroid table. -/
def tableA : List (String × Desc) := [("Ovo Mole", (0, 0, 0))]

/-- A two-entry centroid table. -/
def tableB : List (String × Desc) := [("Ovo Mole", (0, 0, 0)), ("Ovo Passado", (100, 0, 0))]

/-- The configured class set of the program (`EGG_CLASSES`), 6 images per
class, `.png` extension. -/
def cfgEggs : TrainConfig :=
  ⟨[("Ovo Mole", "ovo-mole"), ("Ovo ao Ponto", "ovo-ponto"), ("Ovo Passado", "ovo-passado")],
   6, ".png"⟩

/-- A filesystem providing exactly one valid training image, the first image
of class `Ovo Mole`: a single gray-10 pixel, descriptor `(0, 0, 10)`. -/
def fsOne : FS := fun p =>
  if p = "images/base/ovo-mole-01.png" then FileContent.valid [(10, 10, 10)]
  else FileContent.missing

/-! ### Theorems -/

-- Sanity checks of the embedding on concrete data.
example : cvtPixel (10, 10, 10) = (0, 0, 10) := by norm_num [cvtPixel]
example : cvtPixel (1, 2, 3) = (15, 170, 3) := by norm_num [cvtPixel]
example : classify tableA (fsGray 10) "q.png" = some "Ovo Mole" := by
  norm_num [classify, fsGray, get_average_hsv, meanDesc, sumDesc, cvtPixel,
    classifyPatterns, runBest, bestStep, tableA, dist2]
example : classify tableA fsAllMissing "q.png" = none := by
  norm_num [classify, fsAllMissing, get_average_hsv]
-- Helper facts about the concrete training filesystem `fsOne`.
theorem fsOne_paths :
    trainPaths "images/base" "ovo-mole" ".png" 6 =
      ["images/base/ovo-mole-01.png", "images/base/ovo-mole-02.png",
       "images/base/ovo-mole-03.png", "images/base/ovo-mole-04.png",
       "images/base/ovo-mole-05.png", "images/base/ovo-mole-06.png"] := rfl

theorem fsOne_hit :
    get_average_hsv (fsOne "images/base/ovo-mole-01.png") = some (0, 0, 10) := by
  norm_num [fsOne, get_average_hsv, meanDesc, sumDesc, cvtPixel]

theorem fsOne_miss (p : String) (hp : p ≠ "images/base/ovo-mole-01.png") :
    get_average_hsv (fsOne p) = none := by
  simp [fsOne, hp, get_average_hsv]

theorem fsOne_mole_descriptors :
    classDescriptors fsOne "images/base" cfgEggs "ovo-mole" = [(0, 0, 10)] := by
  simp only [classDescriptors, cfgEggs, fsOne_paths, List.filterMap_cons,
    List.filterMap_nil, fsOne_hit]
  rw [fsOne_miss _ (by decide), fsOne_miss _ (by decide), fsOne_miss _ (by decide),
    fsOne_miss _ (by decide), fsOne_miss _ (by decide)]

theorem fsOne_ponto_paths :
    trainPaths "images/base" "ovo-ponto" ".png" 6 =
      ["images/base/ovo-ponto-01.png", "images/base/ovo-ponto-02.png",
       "images/base/ovo-ponto-03.png", "images/base/ovo-ponto-04.png",
       "images/base/ovo-ponto-05.png", "images/base/ovo-ponto-06.png"] := rfl

theorem fsOne_ponto_descriptors :
    classDescriptors fsOne "images/base" cfgEggs "ovo-ponto" = [] := by
  simp only [classDescriptors, cfgEggs, fsOne_ponto_paths, List.filterMap_cons,
    List.filterMap_nil]
  rw [fsOne_miss _ (by decide), fsOne_miss _ (by decide), fsOne_miss _ (by decide),
    fsOne_miss _ (by decide), fsOne_miss _ (by decide), fsOne_miss _ (by decide)]

/-- C6: for every file path that does not resolve to a readable image —
the file is missing or the decoder rejects it — `get_average_hsv` reports
"no descriptor" (`none`); being a total function, it raises nothing. -/
theorem get_average_hsv_unreadable_none (f : FileContent)
    (h : f = FileContent.missing ∨ f = FileContent.corrupt) :
    get_average_hsv f = none := by
  rcases h with h | h <;> subst h <;> rfl

/-- Witness for C6 at the concrete input `FileContent.missing`. -/
theorem get_average_hsv_unreadable_none_witness :
    (FileContent.missing = FileContent.missing ∨
      FileContent.missing = FileContent.corrupt) ∧
    get_average_hsv FileContent.missing = none :=
  ⟨Or.inl rfl, get_average_hsv_unreadable_none FileContent.missing (Or.inl rfl)⟩

/-- C7: whenever the extractor fails to produce a descriptor for the query
path, `classify` returns the explicit "no result" outcome `none`, never a
class label, whatever the centroid table is. -/
theorem classify_unreadable_query_none (patterns : List (String × Desc))
    (fs : FS) (p : String) (h : get_average_hsv (fs p) = none) :
    classify patterns fs p = none := by
  unfold classify
  rw [h]

/-- Witness for C7: the all-missing filesystem against a nonempty table. -/
theorem classify_unreadable_query_none_witness :
    get_average_hsv (fsAllMissing "ovo.png") = none ∧
    classify tableA fsAllMissing "ovo.png" = none :=
  ⟨rfl, classify_unreadable_query_none tableA fsAllMissing "ovo.png" rfl⟩

/-- C9: classification never mutates the centroid table: the classifier
object after a call to `classify` is the object before the call, so the
label-to-centroid mapping is identical before and after. -/
theorem classify_never_mutates_table (c : EggClassifier) (fs : FS)
    (p : String) :
    (c.classifyM fs p).2 = c ∧
    (c.classifyM fs p).2.color_patterns = c.color_patterns :=
  ⟨rfl, rfl⟩

/-- C10: against an empty centroid table `classify` returns `none` for every
query — also for a query whose descriptor extraction succeeds — the same
outcome an unreadable query produces. -/
theorem classify_empty_table_none (fs : FS) (p : String) :
    classify ([] : List (String × Desc)) fs p = none := by
  unfold classify
  cases h : get_average_hsv (fs p) <;> rfl

/-! ### Trainer lemmas -/

theorem tableOf_eq_nil_iff (f : String → List Desc) (l : List (String × String)) :
    tableOf f l = [] ↔ ∀ cp ∈ l, f cp.2 = [] := by
  unfold tableOf
  rw [List.filterMap_eq_nil_iff]
  constructor
  · intro h cp hcp
    have h2 := h cp hcp
    by_cases he : (f cp.2).isEmpty
    · exact List.isEmpty_iff.mp he
    · simp [he] at h2
  · intro h cp hcp
    simp [h cp hcp]

theorem tableOf_lookup_not_mem (f : String → List Desc) :
    ∀ (l : List (String × String)) (name : String),
    name ∉ l.map Prod.fst → (tableOf f l).lookup name = none := by
  intro l
  induction l with
  | nil => intro name _; rfl
  | cons cp t ih =>
    intro name h
    obtain ⟨cn, cpx⟩ := cp
    simp only [List.map_cons, List.mem_cons, not_or] at h
    obtain ⟨h1, h2⟩ := h
    unfold tableOf
    rw [List.filterMap_cons]
    by_cases he : (f cpx).isEmpty
    · simp only [he, if_pos]
      exact ih name h2
    · simp only [he, if_neg, Bool.false_eq_true, not_false_iff]
      rw [List.lookup_cons]
      have : (name == cn) = false := beq_eq_false_iff_ne.mpr h1
      rw [this]
      exact ih name h2

theorem tableOf_lookup_mean (f : String → List Desc) :
    ∀ (l : List (String × String)) (name pfx : String),
    (name, pfx) ∈ l → (l.map Prod.fst).Nodup → f pfx ≠ [] →
    (tableOf f l).lookup name = some (meanDesc (f pfx)) := by
  intro l
  induction l with
  | nil => intro name pfx h; simp at h
  | cons cp t ih =>
    intro name pfx hmem hnd hne
    obtain ⟨cn, cpx⟩ := cp
    simp only [List.map_cons, List.nodup_cons] at hnd
    obtain ⟨hk, hnd2⟩ := hnd
    unfold tableOf
    rw [List.filterMap_cons]
    rcases List.mem_cons.mp hmem with heq | hmem2
    · obtain ⟨e1, e2⟩ := Prod.mk.injEq _ _ _ _ ▸ heq
      subst e1; subst e2
      have he : (f pfx).isEmpty = false := by
        simp [List.isEmpty_iff, hne]
      rw [he]
      simp only [Bool.false_eq_true, if_false]
      rw [List.lookup_cons]
      simp
    · have h1 : name ≠ cn := by
        intro e
        subst e
        exact hk (List.mem_map.mpr ⟨(name, pfx), hmem2, rfl⟩)
      have hb : (name == cn) = false := beq_eq_false_iff_ne.mpr h1
      by_cases he : (f cpx).isEmpty
      · simp only [he, if_pos]
        exact ih name pfx hmem2 hnd2 hne
      · simp only [he, if_neg, Bool.false_eq_true, not_false_iff]
        rw [List.lookup_cons, hb]
        exact ih name pfx hmem2 hnd2 hne

theorem tableOf_lookup_empty_class (f : String → List Desc) :
    ∀ (l : List (String × String)) (name pfx : String),
    (name, pfx) ∈ l → (l.map Prod.fst).Nodup → f pfx = [] →
    (tableOf f l).lookup name = none := by
  intro l
  induction l with
  | nil => intro name pfx h; simp at h
  | cons cp t ih =>
    intro name pfx hmem hnd hempty
    obtain ⟨cn, cpx⟩ := cp
    simp only [List.map_cons, List.nodup_cons] at hnd
    obtain ⟨hk, hnd2⟩ := hnd
    unfold tableOf
    rw [List.filterMap_cons]
    rcases List.mem_cons.mp hmem with heq | hmem2
    · obtain ⟨e1, e2⟩ := Prod.mk.injEq _ _ _ _ ▸ heq
      subst e1; subst e2
      have he : (f pfx).isEmpty = true := by simp [List.isEmpty_iff, hempty]
      rw [he]
      simp only [if_pos]
      exact tableOf_lookup_not_mem f t name hk
    · have h1 : name ≠ cn := by
        intro e
        subst e
        exact hk (List.mem_map.mpr ⟨(name, pfx), hmem2, rfl⟩)
      have hb : (name == cn) = false := beq_eq_false_iff_ne.mpr h1
      by_cases he : (f cpx).isEmpty
      · simp only [he, if_pos]
        exact ih name pfx hmem2 hnd2 hempty
      · simp only [he, if_neg, Bool.false_eq_true, not_false_iff]
        rw [List.lookup_cons, hb]
        exact ih name pfx hmem2 hnd2 hempty

theorem tableOf_ne_nil_of_mem (f : String → List Desc)
    (l : List (String × String)) (name pfx : String)
    (hmem : (name, pfx) ∈ l) (hne : f pfx ≠ []) :
    tableOf f l ≠ [] := by
  have hmem2 : (name, meanDesc (f pfx)) ∈ tableOf f l := by
    unfold tableOf
    refine List.mem_filterMap.mpr ⟨(name, pfx), hmem, ?_⟩
    simp [List.isEmpty_iff, hne]
  exact List.ne_nil_of_mem hmem2

/-- C3: training fails hard exactly when, after processing every configured
class, no class produced any centroid — every class collected zero
descriptors.  The fatal error carries no table, and this `RuntimeError` is the
only error `train` can produce. -/
theorem train_fatal_iff_no_class_trained (fs : FS) (base : String)
    (cfg : TrainConfig) :
    (train fs base cfg = .error (trainFailMsg base) ↔
      ∀ cp ∈ cfg.classes, classDescriptors fs base cfg cp.2 = []) ∧
    (∀ e, train fs base cfg = .error e → e = trainFailMsg base) := by
  have hiff : trainTable fs base cfg = [] ↔
      ∀ cp ∈ cfg.classes, classDescriptors fs base cfg cp.2 = [] :=
    tableOf_eq_nil_iff (classDescriptors fs base cfg) cfg.classes
  constructor
  · constructor
    · intro h
      rw [← hiff]
      unfold train at h
      by_cases ht : (trainTable fs base cfg).isEmpty
      · exact List.isEmpty_iff.mp ht
      · rw [if_neg ht] at h
        exact absurd h (by simp)
    · intro h
      have ht : (trainTable fs base cfg).isEmpty = true := by
        simp [List.isEmpty_iff, hiff.mpr h]
      unfold train
      rw [if_pos ht]
  · intro e h
    unfold train at h
    by_cases ht : (trainTable fs base cfg).isEmpty
    · rw [if_pos ht] at h
      exact (Except.error.injEq _ _).mp h.symm
    · rw [if_neg ht] at h
      exact absurd h (by simp)

/-- Witness for C3 at a concrete configuration: on the all-missing filesystem
every class collects zero descriptors and training fails with the fatal
error. -/
theorem train_fatal_iff_no_class_trained_witness :
    (train fsAllMissing "images/base" cfgEggs =
        .error (trainFailMsg "images/base") ↔
      ∀ cp ∈ cfgEggs.classes,
        classDescriptors fsAllMissing "images/base" cfgEggs cp.2 = []) ∧
    (∀ e, train fsAllMissing "images/base" cfgEggs = .error e →
      e = trainFailMsg "images/base") :=
  train_fatal_iff_no_class_trained fsAllMissing "images/base" cfgEggs

/-- C4: for every class for which at least one training image decodes
successfully, training succeeds with a table whose centroid for that class is
the componentwise arithmetic mean of exactly the descriptors collected from
the paths that decoded (missing or undecodable files contribute nothing to
`classDescriptors`, rather than zero-vectors). -/
theorem train_centroid_is_mean (fs : FS) (base : String) (cfg : TrainConfig)
    (name pfx : String) (hmem : (name, pfx) ∈ cfg.classes)
    (hnd : (cfg.classes.map Prod.fst).Nodup)
    (hne : classDescriptors fs base cfg pfx ≠ []) :
    train fs base cfg = .ok (trainTable fs base cfg) ∧
    (trainTable fs base cfg).lookup name =
      some (meanDesc (classDescriptors fs base cfg pfx)) := by
  have h2 := tableOf_lookup_mean (classDescriptors fs base cfg) cfg.classes
    name pfx hmem hnd hne
  have h3 : trainTable fs base cfg ≠ [] :=
    tableOf_ne_nil_of_mem (classDescriptors fs base cfg) cfg.classes name pfx hmem hne
  refine ⟨?_, h2⟩
  unfold train
  rw [if_neg (by simp [List.isEmpty_iff, h3])]

/-- Witness for C4: a filesystem with a single decodable training image for
class `Ovo Mole`; its centroid is the mean of the one collected descriptor. -/
theorem train_centroid_is_mean_witness :
    ("Ovo Mole", "ovo-mole") ∈ cfgEggs.classes ∧
    (cfgEggs.classes.map Prod.fst).Nodup ∧
    classDescriptors fsOne "images/base" cfgEggs "ovo-mole" ≠ [] ∧
    (train fsOne "images/base" cfgEggs =
        .ok (trainTable fsOne "images/base" cfgEggs) ∧
      (trainTable fsOne "images/base" cfgEggs).lookup "Ovo Mole" =
        some (meanDesc (classDescriptors fsOne "images/base" cfgEggs "ovo-mole"))) :=
  ⟨by decide, by decide, by simp [fsOne_mole_descriptors],
    train_centroid_is_mean fsOne "images/base" cfgEggs "Ovo Mole" "ovo-mole"
      (by decide) (by decide) (by simp [fsOne_mole_descriptors])⟩

/-- C5: a class whose training files all fail to produce a descriptor is
absent from the centroid table, and training still succeeds when some other
class collected at least one descriptor. -/
theorem train_empty_class_absent_still_ok (fs : FS) (base : String)
    (cfg : TrainConfig) (name pfx name2 pfx2 : String)
    (hmem : (name, pfx) ∈ cfg.classes)
    (hnd : (cfg.classes.map Prod.fst).Nodup)
    (hempty : classDescriptors fs base cfg pfx = [])
    (hmem2 : (name2, pfx2) ∈ cfg.classes)
    (hne2 : classDescriptors fs base cfg pfx2 ≠ []) :
    train fs base cfg = .ok (trainTable fs base cfg) ∧
    (trainTable fs base cfg).lookup name = none := by
  have h2 := tableOf_lookup_empty_class (classDescriptors fs base cfg)
    cfg.classes name pfx hmem hnd hempty
  have h3 : trainTable fs base cfg ≠ [] :=
    tableOf_ne_nil_of_mem (classDescriptors fs base cfg) cfg.classes
      name2 pfx2 hmem2 hne2
  refine ⟨?_, h2⟩
  unfold train
  rw [if_neg (by simp [List.isEmpty_iff, h3])]

/-! ### Extractor: uniform images -/

theorem sumDesc_const (d : Desc) :
    ∀ (l : List Desc), (∀ x ∈ l, x = d) →
    sumDesc l =
      ((l.length : ℚ) * d.1, (l.length : ℚ) * d.2.1, (l.length : ℚ) * d.2.2) := by
  intro l
  induction l with
  | nil => intro _; simp [sumDesc]
  | cons a t ih =>
    intro h
    have ha : a = d := h a (List.mem_cons_self a t)
    have ht := ih (fun x hx => h x (List.mem_cons_of_mem a hx))
    subst ha
    unfold sumDesc at ht ⊢
    rw [List.foldr_cons, ht]
    rw [Prod.ext_iff, Prod.ext_iff]
    refine ⟨?_, ?_, ?_⟩ <;> · simp only [List.length_cons]; push_cast; ring

theorem meanDesc_const (d : Desc) (l : List Desc) (hne : l ≠ [])
    (h : ∀ x ∈ l, x = d) : meanDesc l = d := by
  have hs := sumDesc_const d l h
  have hn : (l.length : ℚ) ≠ 0 := by
    simpa using fun e => hne (List.length_eq_zero.mp e)
  unfold meanDesc
  rw [hs, Prod.ext_iff, Prod.ext_iff]
  exact ⟨mul_div_cancel_left₀ _ hn, mul_div_cancel_left₀ _ hn,
    mul_div_cancel_left₀ _ hn⟩

/-- C8: for every nonempty image all of whose pixels have one constant BGR
color, the extracted descriptor is exactly the closed-form HSV conversion of
that color — no averaging noise; and in general the descriptor of a decoded
image is the per-channel arithmetic mean over all pixels after HSV
conversion. -/
theorem uniform_image_exact_descriptor (c : Pixel) (pixels : List Pixel)
    (hne : pixels ≠ []) (huni : ∀ p ∈ pixels, p = c) :
    get_average_hsv (FileContent.valid pixels) = some (cvtPixel c) ∧
    ∀ ps : List Pixel, get_average_hsv (FileContent.valid ps) =
      some (meanDesc (ps.map cvtPixel)) := by
  refine ⟨?_, fun ps => rfl⟩
  show some (meanDesc (pixels.map cvtPixel)) = some (cvtPixel c)
  congr 1
  apply meanDesc_const
  · simpa using hne
  · intro x hx
    obtain ⟨p, hp, rfl⟩ := List.mem_map.mp hx
    rw [huni p hp]

/-- Witness for C8: a two-pixel uniform image of color BGR = (1,2,3). -/
theorem uniform_image_exact_descriptor_witness :
    (([(1, 2, 3), (1, 2, 3)] : List Pixel) ≠ []) ∧
    (∀ p ∈ ([(1, 2, 3), (1, 2, 3)] : List Pixel), p = (1, 2, 3)) ∧
    (get_average_hsv (FileContent.valid [(1, 2, 3), (1, 2, 3)]) =
        some (cvtPixel (1, 2, 3)) ∧
      ∀ ps : List Pixel, get_average_hsv (FileContent.valid ps) =
        some (meanDesc (ps.map cvtPixel))) :=
  ⟨by decide, by decide,
    uniform_image_exact_descriptor (1, 2, 3) [(1, 2, 3), (1, 2, 3)]
      (by decide) (by decide)⟩

/-- Witness for C5: class `Ovo ao Ponto` collects nothing on `fsOne` and is
absent, while class `Ovo Mole` trains, so training succeeds. -/
theorem train_empty_class_absent_still_ok_witness :
    ("Ovo ao Ponto", "ovo-ponto") ∈ cfgEggs.classes ∧
    (cfgEggs.classes.map Prod.fst).Nodup ∧
    classDescriptors fsOne "images/base" cfgEggs "ovo-ponto" = [] ∧
    ("Ovo Mole", "ovo-mole") ∈ cfgEggs.classes ∧
    classDescriptors fsOne "images/base" cfgEggs "ovo-mole" ≠ [] ∧
    (train fsOne "images/base" cfgEggs =
        .ok (trainTable fsOne "images/base" cfgEggs) ∧
      (trainTable fsOne "images/base" cfgEggs).lookup "Ovo ao Ponto" = none) :=
  ⟨by decide, by decide, fsOne_ponto_descriptors, by decide,
    by simp [fsOne_mole_descriptors],
    train_empty_class_absent_still_ok fsOne "images/base" cfgEggs
      "Ovo ao Ponto" "ovo-ponto" "Ovo Mole" "ovo-mole"
      (by decide) (by decide) fsOne_ponto_descriptors (by decide)
      (by simp [fsOne_mole_descriptors])⟩

/-! ### Classifier loop: the nearest-centroid argmin -/

theorem dist2_nonneg (a b : Desc) : 0 ≤ dist2 a b := by
  unfold dist2
  positivity

theorem foldl_bestStep_some (q : Desc) :
    ∀ (l : List (String × Desc)) (n : String) (m : ℚ),
    List.foldl (bestStep q) (some (n, m)) l = some (best1 q n m l) := by
  intro l
  induction l with
  | nil => intro n m; rfl
  | cons e t ih =>
    intro n m
    simp only [List.foldl_cons, bestStep, best1]
    by_cases h : dist2 q e.2 < m
    · rw [if_pos h, if_pos h, ih]
    · rw [if_neg h, if_neg h, ih]

theorem runBest_cons (q : Desc) (e : String × Desc) (t : List (String × Desc)) :
    runBest (e :: t) q = some (best1 q e.1 (dist2 q e.2) t) := by
  unfold runBest
  rw [List.foldl_cons]
  have h0 : bestStep q none e = some (e.1, dist2 q e.2) := rfl
  rw [h0, foldl_bestStep_some]

/-- Full characterisation of the accumulator-passing loop: either no entry
beats the incoming best `(n, m)` and it survives, or the result is the first
entry whose distance is the strict minimum of `m` and all entry distances. -/
theorem best1_spec (q : Desc) :
    ∀ (l : List (String × Desc)) (n : String) (m : ℚ),
    (best1 q n m l = (n, m) ∧ ∀ j : Fin l.length, m ≤ dist2 q (l.get j).2) ∨
    (∃ i : Fin l.length,
      best1 q n m l = ((l.get i).1, dist2 q (l.get i).2) ∧
      dist2 q (l.get i).2 < m ∧
      (∀ j : Fin l.length, dist2 q (l.get i).2 ≤ dist2 q (l.get j).2) ∧
      (∀ j : Fin l.length, (j : ℕ) < (i : ℕ) →
        dist2 q (l.get i).2 < dist2 q (l.get j).2)) := by
  intro l
  induction l with
  | nil =>
    intro n m
    left
    exact ⟨rfl, fun j => absurd j.2 (by simp)⟩
  | cons e t ih =>
    intro n m
    have hbi : best1 q n m (e :: t) =
        if dist2 q e.2 < m then best1 q e.1 (dist2 q e.2) t
        else best1 q n m t := rfl
    by_cases h : dist2 q e.2 < m
    · have hb : best1 q n m (e :: t) = best1 q e.1 (dist2 q e.2) t := by
        rw [hbi, if_pos h]
      rcases ih e.1 (dist2 q e.2) with ⟨heq, hall⟩ | ⟨i, heq, hlt, hmin, hfirst⟩
      · right
        refine ⟨⟨0, by simp⟩, by rw [hb, heq]; rfl, by simpa using h, ?_, ?_⟩
        · rintro ⟨jv, hj⟩
          cases jv with
          | zero => exact le_refl _
          | succ k =>
            have hk : k < t.length := by simpa using hj
            simpa using hall ⟨k, hk⟩
        · rintro ⟨jv, hj⟩ hcontra
          exact absurd hcontra (by simp)
      · right
        have hi1 : (i : ℕ) + 1 < (e :: t).length :=
          Nat.succ_lt_succ i.2
        refine ⟨⟨(i : ℕ) + 1, hi1⟩, by rw [hb, heq]; rfl, ?_, ?_, ?_⟩
        · exact lt_trans (by simpa using hlt) h
        · rintro ⟨jv, hj⟩
          cases jv with
          | zero => exact le_of_lt (by simpa using hlt)
          | succ k =>
            have hk : k < t.length := by simpa using hj
            simpa using hmin ⟨k, hk⟩
        · rintro ⟨jv, hjlen⟩ hj
          cases jv with
          | zero => simpa using hlt
          | succ k =>
            have hk : k < t.length := by simpa using hjlen
            have hki : k < (i : ℕ) := by simpa using hj
            simpa using hfirst ⟨k, hk⟩ hki
    · have hb : best1 q n m (e :: t) = best1 q n m t := by
        rw [hbi, if_neg h]
      rcases ih n m with ⟨heq, hall⟩ | ⟨i, heq, hlt, hmin, hfirst⟩
      · left
        refine ⟨by rw [hb, heq], ?_⟩
        rintro ⟨jv, hj⟩
        cases jv with
        | zero => simpa using le_of_not_lt h
        | succ k =>
          have hk : k < t.length := by simpa using hj
          simpa using hall ⟨k, hk⟩
      · right
        have hi1 : (i : ℕ) + 1 < (e :: t).length :=
          Nat.succ_lt_succ i.2
        refine ⟨⟨(i : ℕ) + 1, hi1⟩, by rw [hb, heq]; rfl, by simpa using hlt, ?_, ?_⟩
        · rintro ⟨jv, hj⟩
          cases jv with
          | zero =>
            exact le_of_lt (lt_of_lt_of_le (by simpa using hlt) (le_of_not_lt h))
          | succ k =>
            have hk : k < t.length := by simpa using hj
            simpa using hmin ⟨k, hk⟩
        · rintro ⟨jv, hjlen⟩ hj
          cases jv with
          | zero =>
            exact lt_of_lt_of_le (by simpa using hlt) (le_of_not_lt h)
          | succ k =>
            have hk : k < t.length := by simpa using hjlen
            have hki : k < (i : ℕ) := by simpa using hj
            simpa using hfirst ⟨k, hk⟩ hki

/-- On a nonempty table the loop ends with the first entry achieving the
minimum squared distance, paired with that distance. -/
theorem runBest_argmin (patterns : List (String × Desc)) (q : Desc)
    (h : patterns ≠ []) :
    ∃ i : Fin patterns.length,
      runBest patterns q = some ((patterns.get i).1, dist2 q (patterns.get i).2) ∧
      (∀ j : Fin patterns.length,
        dist2 q (patterns.get i).2 ≤ dist2 q (patterns.get j).2) ∧
      (∀ j : Fin patterns.length, (j : ℕ) < (i : ℕ) →
        dist2 q (patterns.get i).2 < dist2 q (patterns.get j).2) := by
  cases patterns with
  | nil => exact absurd rfl h
  | cons e t =>
    rw [runBest_cons]
    rcases best1_spec q t e.1 (dist2 q e.2) with ⟨heq, hall⟩ | ⟨i, heq, hlt, hmin, hfirst⟩
    · refine ⟨⟨0, by simp⟩, by rw [heq]; rfl, ?_, ?_⟩
      · rintro ⟨jv, hj⟩
        cases jv with
        | zero => exact le_refl _
        | succ k =>
          have hk : k < t.length := by simpa using hj
          simpa using hall ⟨k, hk⟩
      · rintro ⟨jv, hj⟩ hcontra
        exact absurd hcontra (by simp)
    · have hi1 : (i : ℕ) + 1 < (e :: t).length :=
        Nat.succ_lt_succ i.2
      refine ⟨⟨(i : ℕ) + 1, hi1⟩, by rw [heq]; rfl, ?_, ?_⟩
      · rintro ⟨jv, hj⟩
        cases jv with
        | zero => exact le_of_lt (by simpa using hlt)
        | succ k =>
          have hk : k < t.length := by simpa using hj
          simpa using hmin ⟨k, hk⟩
      · rintro ⟨jv, hjlen⟩ hj
        cases jv with
        | zero => simpa using hlt
        | succ k =>
          have hk : k < t.length := by simpa using hjlen
          have hki : k < (i : ℕ) := by simpa using hj
          simpa using hfirst ⟨k, hk⟩ hki

/-- C2: on a nonempty centroid table the classifier returns the label of an
entry whose true Euclidean HSV distance (the square root of the squared
distance) to the query is minimal over every centroid of the table, and which
strictly beats every earlier entry in iteration order — so equal-distance
ties go to the first entry encountered. -/
theorem classify_returns_nearest_centroid (patterns : List (String × Desc))
    (q : Desc) (h : patterns ≠ []) :
    ∃ i : Fin patterns.length,
      classifyPatterns patterns q = some (patterns.get i).1 ∧
      (∀ j : Fin patterns.length,
        Real.sqrt ((dist2 q (patterns.get i).2 : ℚ) : ℝ) ≤
          Real.sqrt ((dist2 q (patterns.get j).2 : ℚ) : ℝ)) ∧
      (∀ j : Fin patterns.length, (j : ℕ) < (i : ℕ) →
        Real.sqrt ((dist2 q (patterns.get i).2 : ℚ) : ℝ) <
          Real.sqrt ((dist2 q (patterns.get j).2 : ℚ) : ℝ)) := by
  obtain ⟨i, heq, hmin, hfirst⟩ := runBest_argmin patterns q h
  refine ⟨i, ?_, ?_, ?_⟩
  · unfold classifyPatterns
    rw [heq]
    rfl
  · intro j
    exact Real.sqrt_le_sqrt (by exact_mod_cast hmin j)
  · intro j hj
    refine Real.sqrt_lt_sqrt ?_ (by exact_mod_cast hfirst j hj)
    exact_mod_cast dist2_nonneg q (patterns.get i).2

/-- Witness for C2 on a concrete two-entry table and a concrete query. -/
theorem classify_returns_nearest_centroid_witness :
    (tableB ≠ []) ∧
    (∃ i : Fin tableB.length,
      classifyPatterns tableB (0, 0, 10) = some (tableB.get i).1 ∧
      (∀ j : Fin tableB.length,
        Real.sqrt ((dist2 (0, 0, 10) (tableB.get i).2 : ℚ) : ℝ) ≤
          Real.sqrt ((dist2 (0, 0, 10) (tableB.get j).2 : ℚ) : ℝ)) ∧
      (∀ j : Fin tableB.length, (j : ℕ) < (i : ℕ) →
        Real.sqrt ((dist2 (0, 0, 10) (tableB.get i).2 : ℚ) : ℝ) <
          Real.sqrt ((dist2 (0, 0, 10) (tableB.get j).2 : ℚ) : ℝ))) :=
  ⟨by simp [tableB],
    classify_returns_nearest_centroid tableB (0, 0, 10) (by simp [tableB])⟩

/-- C1 is refuted on the code: `classify` returns only the predicted class
name, never a (label, distance, source-path) triple.  Two successful queries
whose internal winning distances differ (10 vs 20, squared 100 vs 400)
produce the identical return value `some "Ovo Mole"`, so the winning distance
is not made available to the caller through the classification result. -/
theorem classify_result_carries_no_distance :
    classify tableA (fsGray 10) "q.png" = some "Ovo Mole" ∧
    classify tableA (fsGray 20) "q.png" = some "Ovo Mole" ∧
    winningSqDist tableA (0, 0, 10) = some 100 ∧
    winningSqDist tableA (0, 0, 20) = some 400 ∧
    Real.sqrt ((100 : ℚ) : ℝ) ≠ Real.sqrt ((400 : ℚ) : ℝ) := by
  refine ⟨?_, ?_, ?_, ?_, ?_⟩
  · norm_num [classify, fsGray, get_average_hsv, meanDesc, sumDesc, cvtPixel,
      classifyPatterns, runBest, bestStep, tableA, dist2]
  · norm_num [classify, fsGray, get_average_hsv, meanDesc, sumDesc, cvtPixel,
      classifyPatterns, runBest, bestStep, tableA, dist2]
  · norm_num [winningSqDist, runBest, bestStep, tableA, dist2]
  · norm_num [winningSqDist, runBest, bestStep, tableA, dist2]
  · have e1 : ((100 : ℚ) : ℝ) = (10 : ℝ) ^ 2 := by norm_num
    have e2 : ((400 : ℚ) : ℝ) = (20 : ℝ) ^ 2 := by norm_num
    rw [e1, e2, Real.sqrt_sq (by norm_num), Real.sqrt_sq (by norm_num)]
    norm_num

/-- C1 (amended): on success — the query descriptor extracts and the table is
nonempty — `classify` returns exactly the label component of the internal
`(predicted_class, min_distance)` pair; the winning distance is computed but
dropped from the returned value, and no source path or triple is returned. -/
theorem classify_success_returns_label_only (patterns : List (String × Desc))
    (fs : FS) (p : String) (q : Desc) (hne : patterns ≠ [])
    (hq : get_average_hsv (fs p) = some q) :
    ∃ name d, runBest patterns q = some (name, d) ∧
      classify patterns fs p = some name ∧
      winningSqDist patterns q = some d := by
  obtain ⟨i, heq, _, _⟩ := runBest_argmin patterns q hne
  refine ⟨(patterns.get i).1, dist2 q (patterns.get i).2, heq, ?_, ?_⟩
  · unfold classify
    rw [hq]
    show Option.map Prod.fst (runBest patterns q) = some (patterns.get i).1
    rw [heq]
    rfl
  · unfold winningSqDist
    rw [heq]
    rfl

/-- Witness for the amended C1 at a concrete table, filesystem and query. -/
theorem classify_success_returns_label_only_witness :
    (tableA ≠ []) ∧
    get_average_hsv (fsGray 10 "q.png") = some (0, 0, 10) ∧
    (∃ name d, runBest tableA (0, 0, 10) = some (name, d) ∧
      classify tableA (fsGray 10) "q.png" = some name ∧
      winningSqDist tableA (0, 0, 10) = some d) :=
  ⟨by simp [tableA],
    by norm_num [fsGray, get_average_hsv, meanDesc, sumDesc, cvtPixel],
    classify_success_returns_label_only tableA (fsGray 10) "q.png" (0, 0, 10)
      (by simp [tableA])
      (by norm_num [fsGray, get_average_hsv, meanDesc, sumDesc, cvtPixel])⟩

end EggCore
